/-
Verification of the synthetic-dataset generator (train/generate_dataset.py)
against its natural-language specification.

The Python source is shallowly embedded over exact rational arithmetic (ℚ):
pure pixel-coordinate computations become Lean functions, the pseudo-random
draws become explicit parameters, image buffers become an abstract type
parameter (the claims under study only concern bounding boxes, labels,
counts and control flow, never pixel contents), and the `ValueError` raised
by `solve_homography` becomes `Except.error`.
-/
import Mathlib

namespace GenDataset

/-- A 2-D point with exact rational coordinates. -/
abbrev Point : Type := ℚ × ℚ

/-- Embeds `clamp(value, lo, hi) = max(lo, min(hi, value))` (source line 36). -/
def clamp (value lo hi : ℚ) : ℚ := max lo (min hi value)

/-- Python `int(q)`: truncation of a rational toward zero
(`Int.tdiv` is T-division, matching Python `int()` on a float). -/
def ratTrunc (q : ℚ) : ℤ := q.num.tdiv (q.den : ℤ)

/-- Python `min` over a list of rationals (0 on the empty list, which the
source never passes: it always calls it on the four warped corners). -/
def pyMin : List ℚ → ℚ
  | [] => 0
  | a :: t => t.foldl min a

/-- Python `max` over a list of rationals (0 on the empty list, which the
source never passes). -/
def pyMax : List ℚ → ℚ
  | [] => 0
  | a :: t => t.foldl max a

/-- An axis-aligned bounding box `(x1, y1, x2, y2)` in canvas pixel
coordinates, as carried through `generate_one`/`augment_image`. -/
structure BBox where
  x1 : ℚ
  y1 : ℚ
  x2 : ℚ
  y2 : ℚ
  deriving DecidableEq

/-- A 3×3 homography matrix with rational entries, row-major:
`a b c / d e f / g h i`. -/
structure Mat3 where
  a : ℚ
  b : ℚ
  c : ℚ
  d : ℚ
  e : ℚ
  f : ℚ
  g : ℚ
  h : ℚ
  i : ℚ
  deriving DecidableEq

/-- The content of one YOLO label line: class id and the four normalized
fields written by `save_yolo_label` (source line 225). -/
structure YoloLabel where
  class_id : ℕ
  cx : ℚ
  cy : ℚ
  w : ℚ
  h : ℚ
  deriving DecidableEq

/-- Embeds `save_yolo_label` (source lines 213-225): clamp the four
coordinates to `[0, img_size]`, return no label when the clamped box is
degenerate (`x2 <= x1 or y2 <= y1`), otherwise the normalized label record
that the source formats into the label file. `none` models the early
`return` that writes nothing and changes no state. -/
def save_yolo_label (bbox : BBox) (img_size : ℚ) (class_id : ℕ) : Option YoloLabel :=
  let x1 := clamp bbox.x1 0 img_size
  let y1 := clamp bbox.y1 0 img_size
  let x2 := clamp bbox.x2 0 img_size
  let y2 := clamp bbox.y2 0 img_size
  if x2 ≤ x1 ∨ y2 ≤ y1 then none
  else some ⟨class_id, (x1 + x2) / 2 / img_size, (y1 + y2) / 2 / img_size,
             (x2 - x1) / img_size, (y2 - y1) / img_size⟩

/-- The per-point body of the loop in `apply_homography` (source lines
133-139): transform through homogeneous coordinates, divide by the weight,
and pass the point through unchanged when the weight is exactly 0. -/
def applyPoint (m : Mat3) (p : Point) : Point :=
  let tx := m.a * p.1 + m.b * p.2 + m.c
  let ty := m.d * p.1 + m.e * p.2 + m.f
  let tz := m.g * p.1 + m.h * p.2 + m.i
  if tz = 0 then p else (tx / tz, ty / tz)

/-- Embeds `apply_homography` (source lines 131-140). -/
def apply_homography (points : List Point) (m : Mat3) : List Point :=
  points.map (applyPoint m)

/-- Splits off the first row whose leading coefficient is nonzero
(a pivot row), keeping the remaining rows in order. -/
def pivotSplit : List (List ℚ) → Option (List ℚ × List (List ℚ))
  | [] => none
  | r :: rs =>
    match r with
    | [] => none
    | c :: _ =>
      if c ≠ 0 then some (r, rs)
      else
        match pivotSplit rs with
        | some (p, rest) => some (p, r :: rest)
        | none => none

/-- Eliminates the leading variable of row `r` using pivot row `p` and
drops the leading column: the tail of `r - (r₀/p₀)·p`. -/
def elimStep (p r : List ℚ) : List ℚ :=
  match p, r with
  | p0 :: ptail, r0 :: rtail => rtail.zipWith (fun ri pi => ri - (r0 / p0) * pi) ptail
  | _, _ => []

/-- Exact Gaussian elimination with back substitution on an augmented
system (`n` variables, each row `n` coefficients followed by the
right-hand side). This is the exact-arithmetic embedding of the
`np.linalg.lstsq` call at source line 121: for the exactly determined
nonsingular 8×8 system built there, least squares reduces to exact
solving (per the spec, which analyses the solver over exact arithmetic
for non-degenerate quads); columns without a pivot get solution 0. -/
def gaussSolve : ℕ → List (List ℚ) → List ℚ
  | 0, _ => []
  | n + 1, rows =>
    match pivotSplit rows with
    | none => 0 :: gaussSolve n (rows.map List.tail)
    | some (p, rest) =>
      let sol := gaussSolve n (rest.map (elimStep p))
      match p with
      | p0 :: ptail =>
        let coeffs := ptail.take n
        let rhs := ptail.getD n 0
        ((rhs - (List.zipWith (fun ci si => ci * si) coeffs sol).sum) / p0) :: sol
      | [] => 0 :: sol

/-- Embeds `solve_homography` (source lines 107-123): raise (here:
`Except.error`) unless both point lists have exactly 4 entries, otherwise
build the 8-equation system `a·h = b` rows
`[x, y, 1, 0, 0, 0, -u x, -u y] · h = u` and
`[0, 0, 0, x, y, 1, -v x, -v y] · h = v`, solve it, append 1, and reshape
into a 3×3 matrix. -/
def solve_homography (src dst : List Point) : Except String Mat3 :=
  if src.length ≠ 4 ∨ dst.length ≠ 4 then
    Except.error "Need 4 point pairs for homography."
  else
    let rows := ((src.zip dst).map (fun pr =>
      [[pr.1.1, pr.1.2, 1, 0, 0, 0, -pr.2.1 * pr.1.1, -pr.2.1 * pr.1.2, pr.2.1],
       [0, 0, 0, pr.1.1, pr.1.2, 1, -pr.2.2 * pr.1.1, -pr.2.2 * pr.1.2, pr.2.2]])).flatten
    let hv := gaussSolve 8 rows
    Except.ok ⟨hv.getD 0 0, hv.getD 1 0, hv.getD 2 0, hv.getD 3 0, hv.getD 4 0,
               hv.getD 5 0, hv.getD 6 0, hv.getD 7 0, 1⟩

/-- The exact-arithmetic content of the linear system built at source lines
112-118 for one correspondence `(x, y) → (u, v)`: the two rows
`[x, y, 1, 0, 0, 0, -u x, -u y] · h = u` and
`[0, 0, 0, x, y, 1, -v x, -v y] · h = v`, with `h` read off a `Mat3`
row-major (`m.i` is the entry the source appends as 1). -/
def solvesCorrespondence (m : Mat3) (s d : Point) : Prop :=
  m.a * s.1 + m.b * s.2 + m.c + (-d.1 * s.1) * m.g + (-d.1 * s.2) * m.h = d.1 ∧
  m.d * s.1 + m.e * s.2 + m.f + (-d.2 * s.1) * m.g + (-d.2 * s.2) * m.h = d.2

/-- Matrix `m` satisfies the full linear system `a · h = b` of `solve_homography`
for the paired points of `src` and `dst` (the characterization of the
least-squares solution at source line 121 when the 8×8 system is
exactly determined, i.e. for a non-degenerate quad over exact
arithmetic). -/
def solvesSystem (m : Mat3) (src dst : List Point) : Prop :=
  ∀ pr ∈ src.zip dst, solvesCorrespondence m pr.1 pr.2

/-- The source quad of `random_perspective_points` (source line 95): the
four canvas corners in order top-left, top-right, bottom-right,
bottom-left. -/
def srcQuad (w h : ℚ) : List Point := [(0, 0), (w, 0), (w, h), (0, h)]

/-- Embeds `random_perspective_points` (source lines 94-104) with the eight
`random.uniform(0, dx)` / `random.uniform(0, dy)` draws passed explicitly
(each drawn from `[0, w*max_shift]` resp. `[0, h*max_shift]`). -/
def random_perspective_points (w h : ℚ)
    (r1 r2 r3 r4 r5 r6 r7 r8 : ℚ) : List Point × List Point :=
  (srcQuad w h,
   [(r1, r2), (w - r3, r4), (w - r5, h - r6), (r7, h - r8)])

/-- The four corners of a bounding box in the order built at source
line 158: `[(x1,y1), (x2,y1), (x2,y2), (x1,y2)]`. -/
def bboxCorners (b : BBox) : List Point :=
  [(b.x1, b.y1), (b.x2, b.y1), (b.x2, b.y2), (b.x1, b.y2)]

/-- The axis-aligned rectangle enclosing a list of points: `min`/`max` over
the x and over the y coordinates (source lines 160-162). -/
def enclosingRect (pts : List Point) : BBox :=
  ⟨pyMin (pts.map Prod.fst), pyMin (pts.map Prod.snd),
   pyMax (pts.map Prod.fst), pyMax (pts.map Prod.snd)⟩

/-- The bounding-box replacement of the perspective branch (source lines
158-162): map the four corners through the forward homography and
enclose them axis-aligned. -/
def warpBBox (b : BBox) (m : Mat3) : BBox :=
  enclosingRect (apply_homography (bboxCorners b) m)

/-- Embeds `augment_image` (source lines 143-175) over an abstract image
type `Img`: the pixel-level operations (`img.transform`, `add_moire`,
`add_glare`, brightness and contrast enhancement, together with the random
strengths they consume) are abstract functions `Img → Img`, since no claim
concerns pixel contents; the random draws of the perspective quad and the
two 50% coin flips of lines 170-173 are explicit parameters. The bounding
box is replaced only in the perspective branch, via the forward homography
solved from `(src, dst)`; when `solve_homography` fails the Python would
raise, which cannot happen here because `random_perspective_points` always
yields two 4-point lists, so that branch keeps the box (it is provably
unreachable). -/
def augment_image {Img : Type}
    (transformF addMoireF addGlareF brightnessF contrastF : Img → Img)
    (img : Img) (bbox : BBox) (w h : ℚ)
    (apply_perspective apply_moire_flag apply_glare_flag coin1 coin2 : Bool)
    (r1 r2 r3 r4 r5 r6 r7 r8 : ℚ) : Img × BBox :=
  let step1 : Img × BBox :=
    if apply_perspective then
      let sd := random_perspective_points w h r1 r2 r3 r4 r5 r6 r7 r8
      let img1 := transformF img
      match solve_homography sd.1 sd.2 with
      | Except.ok h_mat => (img1, warpBBox bbox h_mat)
      | Except.error _ => (img1, bbox)
    else (img, bbox)
  let img2 := if apply_moire_flag then addMoireF step1.1 else step1.1
  let img3 := if apply_glare_flag then addGlareF img2 else img2
  let img4 := if coin1 then brightnessF img3 else img3
  let img5 := if coin2 then contrastF img4 else img4
  (img5, step1.2)

/-- The size part of `resize_keep_aspect` (source lines 52-62): the resized
width/height as integers, the short side computed with Python float
division and `int()` truncation, both sides floored at 1; no-op when a
source dimension is 0. -/
def resize_keep_aspect_size (w h : ℕ) (target_long : ℤ) : ℤ × ℤ :=
  if w = 0 ∨ h = 0 then ((w : ℤ), (h : ℤ))
  else if h ≤ w then
    (max 1 target_long, max 1 (ratTrunc ((h : ℚ) * ((target_long : ℚ) / (w : ℚ)))))
  else
    (max 1 (ratTrunc ((w : ℚ) * ((target_long : ℚ) / (h : ℚ)))), max 1 target_long)

/-- Embeds `target = int(min(bw, bh) * scale)` (source line 197). -/
def scaleTarget (bw bh : ℕ) (scale : ℚ) : ℤ :=
  ratTrunc ((min bw bh : ℕ) * scale)

/-- The long-side target actually given to `resize_keep_aspect`:
`max(8, target)` (source line 198). -/
def resizeTargetLong (bw bh : ℕ) (scale : ℚ) : ℤ :=
  max 8 (scaleTarget bw bh scale)

/-- Embeds `max_x = max(1, bw - fw)` (source lines 201-202): the inclusive upper
bound of the `random.randint(0, max_x)` placement draw. -/
def placementMax (b f : ℤ) : ℤ := max 1 (b - f)

/-- The support of the top-left offset draw along one axis:
`random.randint(0, max(1, b - f))` draws uniformly from the integers of
`[0, max(1, b - f)]` inclusive (source lines 201-204). -/
def placementRange (b f : ℤ) : Finset ℤ := Finset.Icc 0 (placementMax b f)

/-- The placed bounding box of `generate_one` before augmentation
(source line 207): `(x, y, x + fw, y + fh)`. -/
def placedBBox (x y fw fh : ℤ) : BBox :=
  ⟨(x : ℚ), (y : ℚ), ((x + fw : ℤ) : ℚ), ((y + fh : ℤ) : ℚ)⟩

/-- The orchestrator's VALIDATE check (source line 282): accept the attempt
exactly when the raw bounding box has `x2 - x1 > 2` and `y2 - y1 > 2`. -/
def validateAccept (b : BBox) : Bool :=
  decide (2 < b.x2 - b.x1) && decide (2 < b.y2 - b.y1)

/-- The VALIDATE step as the specification words it: the box is first
clamped to the canvas bounds `[0, canvasSize]` and the `> 2` thresholds are
applied to the clamped box. Stated from the spec, to be compared against
`validateAccept`, the check the source performs. -/
def specValidateAccept (b : BBox) (canvasSize : ℚ) : Bool :=
  decide (2 < clamp b.x2 0 canvasSize - clamp b.x1 0 canvasSize) &&
  decide (2 < clamp b.y2 0 canvasSize - clamp b.y1 0 canvasSize)

/-- Embeds the per-sample retry loop of `main` (source lines 262-283).
`gen k` is the bounding box the `k`-th generation attempt (0-based) would
produce — each attempt draws fresh randomness, so the attempts are an
arbitrary sequence. `tries` is the Python `tries` counter at the top of the
loop body (attempts completed so far); the result is the pair (number of
generation attempts performed, bounding box in scope at loop exit). -/
def retryGo (gen : ℕ → BBox) (tries : ℕ) : ℕ × BBox :=
  if 5 < tries + 1 then (tries, gen (tries - 1))
  else if validateAccept (gen tries) then (tries + 1, gen tries)
  else retryGo gen (tries + 1)
termination_by 5 - tries
decreasing_by omega

/-- The number of generation attempts the orchestrator performs for one
sample index whose attempts produce the boxes `gen 0, gen 1, …`. -/
def sampleAttempts (gen : ℕ → BBox) : ℕ := (retryGo gen 0).1

/-- The bounding box the orchestrator passes on to `save_yolo_label` for
one sample index. -/
def sampleBBox (gen : ℕ → BBox) : BBox := (retryGo gen 0).2

/-! ## Theorems -/

theorem clamp_nonneg (v S : ℚ) : 0 ≤ clamp v 0 S :=
  le_max_left 0 _

theorem clamp_le_hi (v S : ℚ) (hS : 0 ≤ S) : clamp v 0 S ≤ S :=
  max_le hS (min_le_left _ _)

/-- Claim C4: The label encoder clamps all four coordinates to
`[0, canvasSize]` and rejects — producing no label content — exactly when
the clamped box has non-positive width or non-positive height (clamped
`x2 ≤ x1` or `y2 ≤ y1`). -/
theorem c4_encoder_rejects_iff_degenerate (b : BBox) (S : ℚ) (c : ℕ) :
    save_yolo_label b S c = none ↔
      (clamp b.x2 0 S ≤ clamp b.x1 0 S ∨ clamp b.y2 0 S ≤ clamp b.y1 0 S) := by
  simp only [save_yolo_label]
  split_ifs with hcond
  · simp [hcond]
  · simp [hcond]

/-- Claim C10: Whenever the label encoder emits a label for a positive canvas
size, the normalized center coordinates lie in `[0, 1]` and the normalized
width and height lie in `(0, 1]`. -/
theorem c10_emitted_label_fields_bounded (b : BBox) (S : ℚ) (c : ℕ)
    (l : YoloLabel) (hS : 0 < S) (hl : save_yolo_label b S c = some l) :
    (0 ≤ l.cx ∧ l.cx ≤ 1) ∧ (0 ≤ l.cy ∧ l.cy ≤ 1) ∧
    (0 < l.w ∧ l.w ≤ 1) ∧ (0 < l.h ∧ l.h ≤ 1) := by
  simp only [save_yolo_label] at hl
  split_ifs at hl with hcond
  · push_neg at hcond
    obtain ⟨hx12, hy12⟩ := hcond
    rw [Option.some.injEq] at hl
    subst hl
    have h0x1 := clamp_nonneg b.x1 S
    have h0y1 := clamp_nonneg b.y1 S
    have h0x2 := clamp_nonneg b.x2 S
    have h0y2 := clamp_nonneg b.y2 S
    have hx1S := clamp_le_hi b.x1 S hS.le
    have hy1S := clamp_le_hi b.y1 S hS.le
    have hx2S := clamp_le_hi b.x2 S hS.le
    have hy2S := clamp_le_hi b.y2 S hS.le
    refine ⟨⟨?_, ?_⟩, ⟨?_, ?_⟩, ⟨?_, ?_⟩, ⟨?_, ?_⟩⟩
    · exact div_nonneg (div_nonneg (by linarith) (by norm_num)) hS.le
    · rw [div_le_one hS]; linarith
    · exact div_nonneg (div_nonneg (by linarith) (by norm_num)) hS.le
    · rw [div_le_one hS]; linarith
    · exact div_pos (by linarith) hS
    · rw [div_le_one hS]; linarith
    · exact div_pos (by linarith) hS
    · rw [div_le_one hS]; linarith

/-- Witness for C10 at the concrete box `(10, 10, 50, 60)` on a 320-pixel
canvas. -/
theorem c10_witness :
    (0 : ℚ) < 320 ∧
    save_yolo_label ⟨10, 10, 50, 60⟩ 320 0 = some ⟨0, 3/32, 7/64, 1/8, 5/32⟩ ∧
    ((0 ≤ (3/32 : ℚ) ∧ (3/32 : ℚ) ≤ 1) ∧ (0 ≤ (7/64 : ℚ) ∧ (7/64 : ℚ) ≤ 1) ∧
     (0 < (1/8 : ℚ) ∧ (1/8 : ℚ) ≤ 1) ∧ (0 < (5/32 : ℚ) ∧ (5/32 : ℚ) ≤ 1)) := by
  have hl : save_yolo_label ⟨10, 10, 50, 60⟩ 320 0 =
      some ⟨0, 3/32, 7/64, 1/8, 5/32⟩ := by
    norm_num [save_yolo_label, clamp]
  exact ⟨by norm_num, hl,
    c10_emitted_label_fields_bounded ⟨10, 10, 50, 60⟩ 320 0
      ⟨0, 3/32, 7/64, 1/8, 5/32⟩ (by norm_num) hl⟩

/-- Claim C1, counterexample: The claim says VALIDATE accepts exactly when
the box *clamped to canvas bounds* has width > 2 and height > 2. At the
box `(-10, -10, -5, 300)` on a 320-pixel canvas the code accepts (raw
width 5 > 2, raw height 310 > 2) and stops retrying after one attempt,
while the clamped box `(0, 0, 0, 300)` has width 0, so the claimed
condition rejects: the stated equivalence is false. -/
theorem c1_counterexample :
    validateAccept ⟨-10, -10, -5, 300⟩ = true ∧
    specValidateAccept ⟨-10, -10, -5, 300⟩ 320 = false ∧
    sampleAttempts (fun _ => ⟨-10, -10, -5, 300⟩) = 1 := by
  refine ⟨?_, ?_, ?_⟩
  · norm_num [validateAccept]
  · norm_num [specValidateAccept, clamp]
  · rw [sampleAttempts, retryGo]
    norm_num [validateAccept]

/-- Claim C1, amended: The VALIDATE step accepts (stops retrying) exactly
when the *raw, unclamped* bounding box of the attempt has width strictly
greater than 2 and height strictly greater than 2; no clamping is applied
before this check (clamping happens only later, in the label encoder). -/
theorem c1_amended_validate_raw_box (b : BBox) :
    validateAccept b = true ↔ (2 < b.x2 - b.x1 ∧ 2 < b.y2 - b.y1) := by
  simp [validateAccept]

theorem retryGo_attempts_le (gen : ℕ → BBox) (n t : ℕ) (hn : 5 - t ≤ n)
    (ht : t ≤ 5) : (retryGo gen t).1 ≤ 5 := by
  induction n generalizing t with
  | zero =>
    have h5 : t = 5 := by omega
    subst h5
    rw [retryGo]
    norm_num
  | succ n ih =>
    rw [retryGo]
    split_ifs with h1 h2
    · simpa using ht
    · simpa using (by omega : t + 1 ≤ 5)
    · exact ih (t + 1) (by omega) (by omega)

/-- Claim C2: For every sample index and every sequence of attempt outcomes
(`gen k` the box the `k`-th attempt would produce, however adversarial the
input pool), the orchestrator's retry loop terminates and performs at most
5 generation attempts. -/
theorem c2_at_most_five_attempts (gen : ℕ → BBox) : sampleAttempts gen ≤ 5 :=
  retryGo_attempts_le gen 5 0 (by omega) (by omega)

theorem ratTrunc_intCast (n : ℤ) : ratTrunc (n : ℚ) = n := by
  simp [ratTrunc]

theorem ratTrunc_eq_floor_of_nonneg (q : ℚ) (hq : 0 ≤ q) : ratTrunc q = ⌊q⌋ := by
  rw [ratTrunc, Rat.floor_def]
  exact Int.tdiv_eq_ediv (Rat.num_nonneg.mpr hq) (Int.ofNat_nonneg q.den)

/-- Claim C6, counterexample: The claim says the resize target long-side is
*exactly* `scale × min(canvas w, h)` for all values of that product. On a
320×320 canvas with scale 1/100 the product is 16/5 = 3.2, but the code
truncates it to 3 and then floors at 8, giving 8 ≠ 16/5. -/
theorem c6_counterexample :
    ((resizeTargetLong 320 320 (1/100) : ℤ) : ℚ) ≠
      ((min 320 320 : ℕ) : ℚ) * (1/100) := by
  have hprod : ((min 320 320 : ℕ) : ℚ) * (1/100) = 16/5 := by norm_num
  have h1 : scaleTarget 320 320 (1/100) = 3 := by
    rw [scaleTarget, hprod, ratTrunc_eq_floor_of_nonneg _ (by norm_num)]
    norm_num [Int.floor_eq_iff]
  rw [resizeTargetLong, h1, hprod]
  norm_num

/-- Claim C6, amended: `generate_one` computes the resize target long-side as
`max(8, int(scale × min(bw, bh)))`: the product truncated toward zero and
floored at 8 pixels. Consequently it equals the exact product
`scale × min(bw, bh)` precisely when that product is an integer that is at
least 8. -/
theorem c6_amended_target_trunc_floor8 (bw bh : ℕ) (scale : ℚ) :
    ((resizeTargetLong bw bh scale : ℤ) : ℚ) = ((min bw bh : ℕ) : ℚ) * scale ↔
      ∃ n : ℤ, 8 ≤ n ∧ ((min bw bh : ℕ) : ℚ) * scale = (n : ℚ) := by
  constructor
  · intro hEq
    exact ⟨resizeTargetLong bw bh scale,
      by rw [resizeTargetLong]; exact le_max_left _ _, hEq.symm⟩
  · rintro ⟨n, hn8, hn⟩
    rw [resizeTargetLong, scaleTarget, hn, ratTrunc_intCast, max_eq_right hn8]

/-- Claim C7, counterexample: The claim says the placement range collapses to
the single point 0 when the foreground is as large as the canvas, so the
foreground always stays inside. With `bw = fw = 320` the code's range
`randint(0, max(1, bw - fw))` is `{0, 1}`: the offset 1 is drawable, it is
not 0, and it places the foreground one pixel past the canvas edge. -/
theorem c7_counterexample :
    (1 : ℤ) ∈ placementRange 320 320 ∧ ¬((1 : ℤ) + 320 ≤ 320) ∧
    placementRange 320 320 ≠ {0} := by
  have h1 : (1 : ℤ) ∈ placementRange 320 320 := by
    simp [placementRange, placementMax]
  refine ⟨h1, by norm_num, fun h => ?_⟩
  rw [h] at h1
  simp at h1

/-- Claim C7, amended: The top-left offset along an axis is drawn uniformly
over the integers of `[0, max(1, bw - fw)]`. When the foreground is
strictly smaller than the canvas this is exactly the valid placement range
`[0, bw - fw]` and every drawable offset keeps the foreground inside the
canvas; but when the foreground is as large as the canvas (`fw = bw`) the
range is `{0, 1}` — not the single point 0 — so the placement may stick
out by one pixel. -/
theorem c7_amended_placement_range (bw fw : ℤ) :
    (fw < bw →
      placementRange bw fw = Finset.Icc 0 (bw - fw) ∧
      ∀ x ∈ placementRange bw fw, x + fw ≤ bw) ∧
    (fw = bw → placementRange bw fw = {0, 1}) := by
  constructor
  · intro hlt
    have hmax : placementMax bw fw = bw - fw := max_eq_right (by omega)
    refine ⟨by rw [placementRange, hmax], fun x hx => ?_⟩
    rw [placementRange, hmax, Finset.mem_Icc] at hx
    omega
  · intro heq
    subst heq
    rw [placementRange, placementMax]
    have hz : fw - fw = 0 := by omega
    rw [hz]
    ext x
    simp [Finset.mem_Icc]
    omega

/-- Claim C8: `apply_homography` is total: it returns exactly one point per
input point, a point whose transformed homogeneous weight is exactly 0 is
returned unchanged (no division by zero is attempted), and every other
point gets the perspective divide. -/
theorem c8_apply_homography_total (points : List Point) (m : Mat3) :
    (apply_homography points m).length = points.length ∧
    (∀ p : Point, m.g * p.1 + m.h * p.2 + m.i = 0 → applyPoint m p = p) ∧
    (∀ p : Point, m.g * p.1 + m.h * p.2 + m.i ≠ 0 →
      applyPoint m p =
        ((m.a * p.1 + m.b * p.2 + m.c) / (m.g * p.1 + m.h * p.2 + m.i),
         (m.d * p.1 + m.e * p.2 + m.f) / (m.g * p.1 + m.h * p.2 + m.i))) := by
  refine ⟨by simp [apply_homography], fun p hp => ?_, fun p hp => ?_⟩
  · simp [applyPoint, hp]
  · simp [applyPoint, hp]

/-- Claim C9: When the perspective toggle is false, `augment_image` returns
the bounding box exactly equal to its input: the interference-pattern,
glare, brightness and contrast stages touch only the image. -/
theorem c9_photometric_stages_keep_bbox {Img : Type}
    (tF aF gF bF cF : Img → Img) (img : Img) (bbox : BBox) (w h : ℚ)
    (pflag mflag gflag coin1 coin2 : Bool)
    (r1 r2 r3 r4 r5 r6 r7 r8 : ℚ) (hp : pflag = false) :
    (augment_image tF aF gF bF cF img bbox w h pflag mflag gflag coin1 coin2
      r1 r2 r3 r4 r5 r6 r7 r8).2 = bbox := by
  subst hp
  simp [augment_image]

/-- Witness for C9: a concrete run with the perspective toggle off and all
photometric stages on keeps the bounding box `(1, 2, 3, 4)`. -/
theorem c9_witness :
    (augment_image id id id id id (7 : ℕ) ⟨1, 2, 3, 4⟩ 320 320
      false true true true true 1 1 1 1 1 1 1 1).2 = ⟨1, 2, 3, 4⟩ :=
  c9_photometric_stages_keep_bbox id id id id id (7 : ℕ) ⟨1, 2, 3, 4⟩ 320 320
    false true true true true 1 1 1 1 1 1 1 1 rfl

theorem applyPoint_of_solves (m : Mat3) (s d : Point) (hi : m.i = 1)
    (hc : solvesCorrespondence m s d)
    (hz : m.g * s.1 + m.h * s.2 + m.i ≠ 0) :
    applyPoint m s = d := by
  obtain ⟨hc1, hc2⟩ := hc
  have htx : m.a * s.1 + m.b * s.2 + m.c =
      d.1 * (m.g * s.1 + m.h * s.2 + m.i) := by
    rw [hi]; linear_combination hc1
  have hty : m.d * s.1 + m.e * s.2 + m.f =
      d.2 * (m.g * s.1 + m.h * s.2 + m.i) := by
    rw [hi]; linear_combination hc2
  simp only [applyPoint, if_neg hz]
  rw [htx, hty, mul_div_cancel_right₀ _ hz, mul_div_cancel_right₀ _ hz]

/-- Claim C3: With perspective enabled, warping the full canvas rectangle:
for any 3×3 matrix that satisfies `solve_homography`'s linear system for
the canvas corners and a destination quad exactly (which, over exact
arithmetic, is what the least-squares solve returns for a non-degenerate
quad) and whose bottom-right entry is 1, and whose homogeneous weights at
the four corners are nonzero (non-degeneracy), the replacement bounding
box computed at source lines 158-162 equals exactly the axis-aligned
enclosing rectangle of the destination quad. -/
theorem c3_full_canvas_warp_encloses_dst_quad (w h : ℚ) (d0 d1 d2 d3 : Point)
    (m : Mat3) (hi : m.i = 1)
    (hsys : solvesSystem m (srcQuad w h) [d0, d1, d2, d3])
    (hnz : ∀ p ∈ srcQuad w h, m.g * p.1 + m.h * p.2 + m.i ≠ 0) :
    warpBBox ⟨0, 0, w, h⟩ m = enclosingRect [d0, d1, d2, d3] := by
  have hcorners : bboxCorners ⟨0, 0, w, h⟩ = srcQuad w h := by
    simp [bboxCorners, srcQuad]
  have e0 : applyPoint m (0, 0) = d0 :=
    applyPoint_of_solves m (0, 0) d0 hi (hsys ((0, 0), d0) (by simp [srcQuad]))
      (hnz (0, 0) (by simp [srcQuad]))
  have e1 : applyPoint m (w, 0) = d1 :=
    applyPoint_of_solves m (w, 0) d1 hi (hsys ((w, 0), d1) (by simp [srcQuad]))
      (hnz (w, 0) (by simp [srcQuad]))
  have e2 : applyPoint m (w, h) = d2 :=
    applyPoint_of_solves m (w, h) d2 hi (hsys ((w, h), d2) (by simp [srcQuad]))
      (hnz (w, h) (by simp [srcQuad]))
  have e3 : applyPoint m (0, h) = d3 :=
    applyPoint_of_solves m (0, h) d3 hi (hsys ((0, h), d3) (by simp [srcQuad]))
      (hnz (0, h) (by simp [srcQuad]))
  have e0' : applyPoint m 0 = d0 := e0
  rw [warpBBox, hcorners]
  simp [apply_homography, srcQuad, e0, e0', e1, e2, e3]

/-- Witness for C3: scaling the unit canvas by 2 (a concrete exact
homography solution) sends the full-canvas box to the enclosing rectangle
of the destination quad `[(0,0), (2,0), (2,2), (0,2)]`. -/
theorem c3_witness :
    warpBBox ⟨0, 0, 1, 1⟩ ⟨2, 0, 0, 0, 2, 0, 0, 0, 1⟩ =
      enclosingRect [(0, 0), (2, 0), (2, 2), (0, 2)] :=
  c3_full_canvas_warp_encloses_dst_quad 1 1 (0, 0) (2, 0) (2, 2) (0, 2)
    ⟨2, 0, 0, 0, 2, 0, 0, 0, 1⟩ rfl
    (by norm_num [solvesSystem, solvesCorrespondence, srcQuad])
    (by norm_num [srcQuad])

/-- Claim C5: `solve_homography` fails (raises, here `Except.error`) exactly
when it is not given 4 source and 4 destination points; with exactly 4
correspondences it succeeds and the returned matrix has bottom-right entry
equal to 1. -/
theorem c5_solver_arity_and_normalization (src dst : List Point) :
    ((∃ e, solve_homography src dst = Except.error e) ↔
      ¬(src.length = 4 ∧ dst.length = 4)) ∧
    (∀ m : Mat3, solve_homography src dst = Except.ok m → m.i = 1) := by
  constructor
  · rw [solve_homography]
    split_ifs with hc
    · exact iff_of_true ⟨_, rfl⟩ (by tauto)
    · push_neg at hc
      refine iff_of_false ?_ (by tauto)
      rintro ⟨e, he⟩
      exact absurd he (by simp)
  · intro m hm
    rw [solve_homography] at hm
    split_ifs at hm with hc
    · simp only [Except.ok.injEq] at hm
      subst hm
      rfl

/-- Witness for C5: on the identity correspondence of the unit square the
solver succeeds with the identity matrix, whose bottom-right entry is 1. -/
theorem c5_witness :
    solve_homography [(0, 0), (1, 0), (1, 1), (0, 1)]
        [(0, 0), (1, 0), (1, 1), (0, 1)] =
      Except.ok ⟨1, 0, 0, 0, 1, 0, 0, 0, 1⟩ ∧
    Mat3.i ⟨1, 0, 0, 0, 1, 0, 0, 0, 1⟩ = 1 := by
  have hok : solve_homography [(0, 0), (1, 0), (1, 1), (0, 1)]
      [(0, 0), (1, 0), (1, 1), (0, 1)] =
      Except.ok ⟨1, 0, 0, 0, 1, 0, 0, 0, 1⟩ := by
    norm_num [solve_homography, gaussSolve, pivotSplit, elimStep]
  exact ⟨hok, (c5_solver_arity_and_normalization _ _).2 _ hok⟩

end GenDataset
